import Mathlib

set_option maxRecDepth 100000

/-!
Shallow embedding of the indicator / signal / backtest engine of the two
scanner scripts (`stock_scanner_go_mini.py` and `volume_reversal_strategy.py`).

Bar columns are modelled as total functions `ℕ → ℚ`; the float NaN produced by
a not-yet-full rolling window or a degenerate ratio is modelled as `none` in
`Option ℚ`, and every comparison against `none` is `false`, matching IEEE-754
NaN comparison semantics used by pandas/numpy.  Bars are assumed to carry real
(finite) numbers; the one place where the source can produce an infinity
(volume divided by a zero rolling mean) is modelled explicitly by `VRat`.
-/

namespace StockScan

/-- One security's bar columns (date column omitted; addressing is by index,
as in the source after `reset_index`).  `hasChange` models whether the
percent-change column is present in the input file. -/
structure Bars where
  opn : ℕ → ℚ
  high : ℕ → ℚ
  low : ℕ → ℚ
  close : ℕ → ℚ
  vol : ℕ → ℚ
  turnover : ℕ → ℚ
  change : ℕ → ℚ
  hasChange : Bool

/-- `x < y` on NaN-able values: false unless both are defined (pandas/numpy
comparison semantics for NaN). -/
def oLtO : Option ℚ → Option ℚ → Bool
  | some a, some b => decide (a < b)
  | _, _ => false

/-- `x > c` against a threshold: false when `x` is NaN. -/
def oGt (x : Option ℚ) (c : ℚ) : Bool :=
  match x with
  | some q => decide (c < q)
  | none => false

/-- `x < c` against a threshold: false when `x` is NaN. -/
def oLt (x : Option ℚ) (c : ℚ) : Bool :=
  match x with
  | some q => decide (q < c)
  | none => false

/-- `x ≥ y` with NaN on either side yielding false. -/
def oGeO : Option ℚ → Option ℚ → Bool
  | some a, some b => decide (b ≤ a)
  | _, _ => false

/-- `series.rolling(window=w).mean()` at index `i`: arithmetic mean of the
`w` values ending at (and including) `i`, NaN until the window is full. -/
def rollingMean (f : ℕ → ℚ) (w i : ℕ) : Option ℚ :=
  if i + 1 < w then none
  else some ((((List.range w).map (fun k => f (i - k))).sum) / (w : ℚ))

/-- `series.rolling(window=w).min()` at index `i`. -/
def rollingMin (f : ℕ → ℚ) (w i : ℕ) : Option ℚ :=
  if i + 1 < w then none
  else some (((List.range w).map (fun k => f (i - k))).foldl min (f i))

/-- `series.rolling(window=w).max()` at index `i`. -/
def rollingMax (f : ℕ → ℚ) (w i : ℕ) : Option ℚ :=
  if i + 1 < w then none
  else some (((List.range w).map (fun k => f (i - k))).foldl max (f i))

/-! ### Mini-scanner indicators (`calculate_indicators`) -/

/-- `delta.where(delta > 0, 0)` at index `k`: the positive part of the
close-to-close difference; the NaN of `diff()` at index 0 fails the `> 0`
test and is replaced by 0. -/
def gainAt (s : Bars) (k : ℕ) : ℚ :=
  if k = 0 then 0
  else if 0 < s.close k - s.close (k - 1) then s.close k - s.close (k - 1) else 0

/-- `(-delta.where(delta < 0, 0))` at index `k`. -/
def lossAt (s : Bars) (k : ℕ) : ℚ :=
  if k = 0 then 0
  else if s.close k - s.close (k - 1) < 0 then -(s.close k - s.close (k - 1)) else 0

/-- RSI(6): `100 - 100/(1 + gain/loss)` with the zero `loss` replaced by NaN
(`loss.replace(0, np.nan)`), so the ratio and hence RSI are undefined when the
6-bar mean loss is zero. -/
def rsi6 (s : Bars) (i : ℕ) : Option ℚ :=
  match rollingMean (gainAt s) 6 i, rollingMean (lossAt s) 6 i with
  | some g, some l => if l = 0 then none else some (100 - 100 / (1 + g / l))
  | _, _ => none

/-- RSV of KDJ(9,·,·): position of the close within the 9-bar high/low range,
scaled to 0..100.  When the 9-bar range is degenerate (high = low) the source
computes 0/0 = NaN (bars are taken to satisfy low ≤ close ≤ high), modelled
as `none`; before the window is full the rolling min/max are NaN. -/
def rsv (s : Bars) (i : ℕ) : Option ℚ :=
  match rollingMin s.low 9 i, rollingMax s.high 9 i with
  | some l9, some h9 =>
      if h9 = l9 then none else some ((s.close i - l9) / (h9 - l9) * 100)
  | _, _ => none

/-- Running weighted sum of the defined RSV values with decay 2/3 per bar
position — the numerator maintained by `rsv.ewm(com=2).mean()` (pandas
defaults `adjust=True`, `ignore_na=False`: weights are based on absolute
positions and NaN entries contribute nothing). -/
def ewmNum (s : Bars) : ℕ → ℚ
  | 0 => match rsv s 0 with
    | some r => r
    | none => 0
  | i + 1 => (2 : ℚ) / 3 * ewmNum s i +
      match rsv s (i + 1) with
      | some r => r
      | none => 0

/-- Running weight total matching `ewmNum`. -/
def ewmDen (s : Bars) : ℕ → ℚ
  | 0 => match rsv s 0 with
    | some _ => 1
    | none => 0
  | i + 1 => (2 : ℚ) / 3 * ewmDen s i +
      match rsv s (i + 1) with
      | some _ => 1
      | none => 0

/-- `df['kdj_k'] = rsv.ewm(com=2).mean()`: the weight-normalised exponentially
weighted mean of the defined RSV values; NaN while no RSV value is defined. -/
def kdjK (s : Bars) (i : ℕ) : Option ℚ :=
  if ewmDen s i = 0 then none else some (ewmNum s i / ewmDen s i)

/-- `df['ma5']`. -/
def ma5 (s : Bars) (i : ℕ) : Option ℚ := rollingMean s.close 5 i

/-- `df['ma60']`. -/
def ma60 (s : Bars) (i : ℕ) : Option ℚ := rollingMean s.close 60 i

/-- `df['avg_turnover_30']`. -/
def avgTurnover30 (s : Bars) (i : ℕ) : Option ℚ := rollingMean s.turnover 30 i

/-- `df['vol_ma5'] = df['成交量'].shift(1).rolling(window=5).mean()`: the
1-bar-lagged 5-bar mean volume (the mean of the 5 bars strictly before `i`). -/
def volMa5 (s : Bars) (i : ℕ) : Option ℚ :=
  if i = 0 then none else rollingMean s.vol 5 (i - 1)

/-- Value of `df['vol_ratio'] = df['成交量'] / df['vol_ma5']` at one index:
NaN/NaN propagation gives `undef`; float division of a nonzero volume by a
zero mean gives a signed infinity, and 0/0 gives NaN. -/
inductive VRat where
  | undef
  | pinf
  | ninf
  | val (q : ℚ)
deriving DecidableEq

/-- `df['vol_ratio']` at index `i`, with IEEE-754 division semantics. -/
def volRat (s : Bars) (i : ℕ) : VRat :=
  match volMa5 s i with
  | none => .undef
  | some m =>
      if m = 0 then
        if 0 < s.vol i then .pinf else if s.vol i < 0 then .ninf else .undef
      else .val (s.vol i / m)

/-! ### Mini-scanner filter chain (`process_single_stock`, evaluated with
`latest` at index `i` and `prev` at index `i-1`) -/

/-- Step 1: `latest['收盘'] < MIN_PRICE or latest['avg_turnover_30'] > MAX_AVG_TURNOVER_30`. -/
def baseReject (s : Bars) (i : ℕ) : Bool :=
  decide (s.close i < 5) || oGt (avgTurnover30 s i) (9 / 2)

/-- `change = latest['涨跌幅'] if '涨跌幅' in latest else 0`. -/
def changeVal (s : Bars) (i : ℕ) : ℚ :=
  if s.hasChange then s.change i else 0

/-- `potential = (latest['ma60'] - latest['收盘']) / latest['收盘'] * 100`. -/
def potential (s : Bars) (i : ℕ) : Option ℚ :=
  (ma60 s i).map (fun m => (m - s.close i) / s.close i * 100)

/-- Step 2: `potential < MIN_PROFIT_POTENTIAL or change > MAX_TODAY_CHANGE`. -/
def spaceReject (s : Bars) (i : ℕ) : Bool :=
  oLt (potential s i) 10 || decide (5 < changeVal s i)

/-- Step 3 (the oversold gate): `latest['rsi6'] > RSI6_MAX or latest['kdj_k'] > KDJ_K_MAX`. -/
def oversoldRejects (s : Bars) (i : ℕ) : Bool :=
  oGt (rsi6 s i) 35 || oGt (kdjK s i) 45

/-- Step 4: `not (latest['收盘'] >= latest['ma5'] or latest['ma5'] >= prev['ma5'])`. -/
def stabReject (s : Bars) (i : ℕ) : Bool :=
  !(oGeO (some (s.close i)) (ma5 s i) || oGeO (ma5 s i) (ma5 s (i - 1)))

/-- Chained comparison `MIN_VOLUME_RATIO <= v <= MAX_VOLUME_RATIO` under
IEEE-754: NaN fails both, `+inf` fails the upper bound, `-inf` the lower. -/
def volBandOk : VRat → Bool
  | .val q => decide ((1 : ℚ) / 5 ≤ q) && decide (q ≤ 23 / 20)
  | _ => false

/-- Step 5: reject unless the volume ratio lies in the configured band. -/
def volBandReject (s : Bars) (i : ℕ) : Bool :=
  !(volBandOk (volRat s i))

/-- The whole filter chain of `process_single_stock` evaluated at index `i`
(the source evaluates it at the last index): true iff a record is produced. -/
def miniAccepts (s : Bars) (i : ℕ) : Bool :=
  !baseReject s i && !spaceReject s i && !oversoldRejects s i &&
    !stabReject s i && !volBandReject s i

/-- `round(x, 1)` used when assembling the output record (round half up; the
source's banker's rounding differs only at exact ties, which no statement
here probes). -/
def round1 (q : ℚ) : ℚ := ((10 * q + 1 / 2).floor : ℚ) / 10

/-- The `今日涨跌` field of the output record, before the `%` suffix. -/
def reportedChange (s : Bars) (i : ℕ) : ℚ := round1 (changeVal s i)

/-! ### Reversal strategy (`volume_reversal_strategy.py`) -/

/-- `ma20_vol = df['成交量'].rolling(20).mean()`. -/
def volMa20 (s : Bars) (i : ℕ) : Option ℚ := rollingMean s.vol 20 i

/-- `is_strategy_hit(i)`: prior activity in the 10 bars before `i`, extreme
shrink on the previous two bars, and a bullish candle closing above the
previous high.  Comparisons against a NaN rolling mean are false. -/
def isStrategyHit (s : Bars) (i : ℕ) : Bool :=
  if i < 20 then false
  else
    ((List.range 10).any (fun k =>
        oLtO ((volMa20 s (i - 10 + k)).map (fun m => m * (3 / 2)))
          (some (s.vol (i - 10 + k))))) &&
    (oLtO (some (s.vol (i - 1))) ((volMa20 s i).map (fun m => m * (3 / 4))) &&
      oLtO (some (s.vol (i - 2))) ((volMa20 s i).map (fun m => m * (3 / 4)))) &&
    (decide (s.high (i - 1) < s.close i) && decide (s.opn i < s.close i))

/-- The forward-return horizons of the virtual ledger. -/
def horizons : List ℕ := [7, 14, 20, 60]

/-- `start_scan = max(20, len(df) - 500)`. -/
def startScan (n : ℕ) : ℕ := max 20 (n - 500)

/-- The indices visited by `for j in range(start_scan, len(df) - 1)`. -/
def scanIdxs (n : ℕ) : List ℕ :=
  (List.range (n - 1)).filter (fun j => decide (startScan n ≤ j))

/-- The per-hit record `res`: forward return at each horizon, `None` when the
target bar falls outside the series. -/
def hitRecord (s : Bars) (n j : ℕ) : ℕ → Option ℚ := fun d =>
  if j + d < n then some ((s.close (j + d) - s.close j) / s.close j) else none

/-- `history_ledger`: one record per historical index where the predicate is
true, tagged with its index. -/
def buildLedger (s : Bars) (n : ℕ) : List (ℕ × (ℕ → Option ℚ)) :=
  (scanIdxs n).filterMap (fun j =>
    if isStrategyHit s j then some (j, hitRecord s n j) else none)

/-- The `p20` column of the ledger (`ledger_df['p20']`). -/
def p20Column (s : Bars) (n : ℕ) : List (Option ℚ) :=
  (buildLedger s n).map (fun e => e.2 20)

/-- `win_rate_20d`: 0 unless some forward return is defined, else the fraction
of defined forward returns that are positive (`(p20_valid > 0).sum() / len`). -/
def winRate20 (L : List (Option ℚ)) : ℚ :=
  let v := L.filterMap id
  if v.isEmpty then 0
  else ((v.countP (fun q => decide (0 < q)) : ℕ) : ℚ) / (v.length : ℚ)

/-- One-decimal rendering of a nonnegative rational, as `f"{x:.1f}"` renders
the values probed here (exact multiples of 0.1, where half-even and half-up
rounding agree). -/
def fmt1 (q : ℚ) : String :=
  let n := (10 * q + 1 / 2).floor.toNat
  toString (n / 10) ++ "." ++ toString (n % 10)

/-- The formatted win-rate cell `f"{win_rate_20d*100:.1f}%"`. -/
def winKey (q : ℚ) : String := fmt1 (q * 100) ++ "%"

/-- The reported `历史20日胜率` string for a p20 column. -/
def winRateStr (L : List (Option ℚ)) : String := winKey (winRate20 L)

/-- Descending insertion by the formatted win-rate string — the comparator
actually applied by `sort_values(by="历史20日胜率", ascending=False)`, which
sorts the object (string) column lexicographically. -/
def insertDescByKey (x : ℚ) : List ℚ → List ℚ
  | [] => [x]
  | y :: ys => if winKey y < winKey x then x :: y :: ys else y :: insertDescByKey x ys

/-- Sorting a list of win rates the way the source sorts the result table. -/
def sortByWinRateDesc (L : List ℚ) : List ℚ :=
  L.foldr insertDescByKey []

/-! ### Concrete series used as witnesses and counterexamples -/

/-- A constant-price series: every indicator that needs price variation is
NaN at every index. -/
def constBars : Bars where
  opn := fun _ => 10
  high := fun _ => 10
  low := fun _ => 10
  close := fun _ => 10
  vol := fun _ => 100
  turnover := fun _ => 1
  change := fun _ => 0
  hasChange := true

/-- `constBars` with a different volume at index 30 only (a "future" bar for
any evaluation at index ≤ 29). -/
def futBars : Bars :=
  { constBars with vol := fun j => if j = 30 then 999 else 100 }

/-- `constBars` without the percent-change column. -/
def noChangeBars : Bars :=
  { constBars with hasChange := false }

/-- A series engineered to fire `is_strategy_hit` exactly at index 25: a
volume burst at bar 20, a two-bar trough at bars 23–24, and a breakout
candle at bar 25 (with a later rise at bar 45 providing a positive 20-day
forward return when the series is long enough). -/
def hitBars : Bars where
  opn := fun _ => 10
  high := fun j => if j = 25 then 23 / 2 else if j = 45 then 25 / 2 else 21 / 2
  low := fun _ => 19 / 2
  close := fun j => if j = 25 then 11 else if j = 45 then 12 else 10
  vol := fun j => if j = 20 then 1000 else if j = 23 ∨ j = 24 then 50 else 100
  turnover := fun _ => 1
  change := fun _ => 0
  hasChange := true

/-- A series whose first five volumes are zero, so the lagged 5-bar mean at
index 5 is zero while the volume there is positive. -/
def zeroVolBars : Bars :=
  { constBars with vol := fun j => if j < 5 then 0 else 10 }

/-- A series whose 9-bar range is non-degenerate from index 8 on, with RSV
equal to 0 at index 8 and 100 at index 9. -/
def stochBars : Bars where
  opn := fun _ => 50
  high := fun _ => 100
  low := fun _ => 0
  close := fun j => if j = 8 then 0 else if j = 9 then 100 else 50
  vol := fun _ => 100
  turnover := fun _ => 1
  change := fun _ => 0
  hasChange := true

/-- The smoothing as the specification words it: the recursion
`K = (2/3)·K_prev + (1/3)·RSV` applied step by step over the defined RSV
values only, seeded with the first defined RSV.  Stated from the spec's
words, for comparison against the source's `kdjK`. -/
def kdjKRec (s : Bars) (i : ℕ) : Option ℚ :=
  ((List.range (i + 1)).map (rsv s)).foldl
    (fun acc r =>
      match r, acc with
      | some x, some k => some ((2 : ℚ) / 3 * k + 1 / 3 * x)
      | some x, none => some x
      | none, a => a) none

/-! ### Shared helper lemmas -/

theorem rollingMean_congr {f g : ℕ → ℚ} {i : ℕ} (w : ℕ)
    (h : ∀ j, j ≤ i → f j = g j) : rollingMean f w i = rollingMean g w i := by
  unfold rollingMean
  by_cases hc : i + 1 < w
  · rw [if_pos hc, if_pos hc]
  · rw [if_neg hc, if_neg hc]
    have hmap : (List.range w).map (fun k => f (i - k)) =
        (List.range w).map (fun k => g (i - k)) :=
      List.map_congr_left (fun k _ => h (i - k) (Nat.sub_le i k))
    rw [hmap]

theorem rollingMin_congr {f g : ℕ → ℚ} {i : ℕ} (w : ℕ)
    (h : ∀ j, j ≤ i → f j = g j) : rollingMin f w i = rollingMin g w i := by
  unfold rollingMin
  by_cases hc : i + 1 < w
  · rw [if_pos hc, if_pos hc]
  · rw [if_neg hc, if_neg hc]
    have hmap : (List.range w).map (fun k => f (i - k)) =
        (List.range w).map (fun k => g (i - k)) :=
      List.map_congr_left (fun k _ => h (i - k) (Nat.sub_le i k))
    rw [hmap, h i (le_refl i)]

theorem rollingMax_congr {f g : ℕ → ℚ} {i : ℕ} (w : ℕ)
    (h : ∀ j, j ≤ i → f j = g j) : rollingMax f w i = rollingMax g w i := by
  unfold rollingMax
  by_cases hc : i + 1 < w
  · rw [if_pos hc, if_pos hc]
  · rw [if_neg hc, if_neg hc]
    have hmap : (List.range w).map (fun k => f (i - k)) =
        (List.range w).map (fun k => g (i - k)) :=
      List.map_congr_left (fun k _ => h (i - k) (Nat.sub_le i k))
    rw [hmap, h i (le_refl i)]

theorem list_any_congr {α : Type} (l : List α) (f g : α → Bool)
    (h : ∀ a ∈ l, f a = g a) : l.any f = l.any g := by
  induction l with
  | nil => rfl
  | cons x xs ih =>
      simp only [List.any_cons, h x (by simp)]
      rw [ih (fun a ha => h a (by simp [ha]))]

theorem oLtO_map_some {x : Option ℚ} {f : ℚ → ℚ} {b : ℚ} :
    oLtO (x.map f) (some b) = true ↔ ∃ m, x = some m ∧ f m < b := by
  cases x <;> simp [oLtO, Option.map]

theorem oLtO_some_map {a : ℚ} {x : Option ℚ} {f : ℚ → ℚ} :
    oLtO (some a) (x.map f) = true ↔ ∃ m, x = some m ∧ a < f m := by
  cases x <;> simp [oLtO, Option.map]

theorem gainAt_congr {s t : Bars} {i : ℕ}
    (hcl : ∀ j, j ≤ i → s.close j = t.close j) (k : ℕ) (hk : k ≤ i) :
    gainAt s k = gainAt t k := by
  unfold gainAt
  by_cases h0 : k = 0
  · rw [if_pos h0, if_pos h0]
  · rw [if_neg h0, if_neg h0, hcl k hk, hcl (k - 1) (le_trans (Nat.sub_le k 1) hk)]

theorem lossAt_congr {s t : Bars} {i : ℕ}
    (hcl : ∀ j, j ≤ i → s.close j = t.close j) (k : ℕ) (hk : k ≤ i) :
    lossAt s k = lossAt t k := by
  unfold lossAt
  by_cases h0 : k = 0
  · rw [if_pos h0, if_pos h0]
  · rw [if_neg h0, if_neg h0, hcl k hk, hcl (k - 1) (le_trans (Nat.sub_le k 1) hk)]

theorem rsi6_congr {s t : Bars} {i : ℕ}
    (hcl : ∀ j, j ≤ i → s.close j = t.close j) : rsi6 s i = rsi6 t i := by
  unfold rsi6
  rw [rollingMean_congr 6 (fun j hj => gainAt_congr hcl j hj),
    rollingMean_congr 6 (fun j hj => lossAt_congr hcl j hj)]

theorem rsv_congr {s t : Bars} {i : ℕ}
    (hhi : ∀ j, j ≤ i → s.high j = t.high j)
    (hlo : ∀ j, j ≤ i → s.low j = t.low j)
    (hcl : ∀ j, j ≤ i → s.close j = t.close j)
    (k : ℕ) (hk : k ≤ i) : rsv s k = rsv t k := by
  unfold rsv
  rw [rollingMin_congr 9 (fun j hj => hlo j (le_trans hj hk)),
    rollingMax_congr 9 (fun j hj => hhi j (le_trans hj hk)), hcl k hk]

theorem ewmNum_congr {s t : Bars} {i : ℕ}
    (h : ∀ k, k ≤ i → rsv s k = rsv t k) : ewmNum s i = ewmNum t i := by
  induction i with
  | zero =>
      unfold ewmNum
      rw [h 0 (le_refl 0)]
  | succ n ih =>
      unfold ewmNum
      rw [h (n + 1) (le_refl (n + 1)),
        ih (fun k hk => h k (le_trans hk (Nat.le_succ n)))]

theorem ewmDen_congr {s t : Bars} {i : ℕ}
    (h : ∀ k, k ≤ i → rsv s k = rsv t k) : ewmDen s i = ewmDen t i := by
  induction i with
  | zero =>
      unfold ewmDen
      rw [h 0 (le_refl 0)]
  | succ n ih =>
      unfold ewmDen
      rw [h (n + 1) (le_refl (n + 1)),
        ih (fun k hk => h k (le_trans hk (Nat.le_succ n)))]

theorem kdjK_congr {s t : Bars} {i : ℕ}
    (h : ∀ k, k ≤ i → rsv s k = rsv t k) : kdjK s i = kdjK t i := by
  unfold kdjK
  rw [ewmNum_congr h, ewmDen_congr h]

theorem isStrategyHit_congr (s t : Bars) (i : ℕ)
    (h : ∀ j, j ≤ i → s.opn j = t.opn j ∧ s.high j = t.high j ∧
        s.low j = t.low j ∧ s.close j = t.close j ∧ s.vol j = t.vol j ∧
        s.turnover j = t.turnover j ∧ s.change j = t.change j) :
    isStrategyHit s i = isStrategyHit t i := by
  have hvol : ∀ j, j ≤ i → s.vol j = t.vol j := fun j hj => (h j hj).2.2.2.2.1
  have hma : ∀ j, j ≤ i → volMa20 s j = volMa20 t j := fun j hj =>
    rollingMean_congr 20 (fun k hk => hvol k (le_trans hk hj))
  unfold isStrategyHit
  by_cases h20 : i < 20
  · rw [if_pos h20, if_pos h20]
  · rw [if_neg h20, if_neg h20]
    have hact : ((List.range 10).any fun k =>
        oLtO ((volMa20 s (i - 10 + k)).map (fun m => m * (3 / 2)))
          (some (s.vol (i - 10 + k)))) =
        ((List.range 10).any fun k =>
        oLtO ((volMa20 t (i - 10 + k)).map (fun m => m * (3 / 2)))
          (some (t.vol (i - 10 + k)))) := by
      apply list_any_congr
      intro k hk
      have hk10 : k < 10 := List.mem_range.mp hk
      have hj : i - 10 + k ≤ i := by omega
      rw [hma _ hj, hvol _ hj]
    rw [hact, hma i (le_refl i), hvol (i - 1) (Nat.sub_le i 1),
      hvol (i - 2) (Nat.sub_le i 2), (h (i - 1) (Nat.sub_le i 1)).2.1,
      (h i (le_refl i)).2.2.2.1, (h i (le_refl i)).1]

theorem miniAccepts_congr (s t : Bars) (i : ℕ)
    (hflag : s.hasChange = t.hasChange)
    (h : ∀ j, j ≤ i → s.opn j = t.opn j ∧ s.high j = t.high j ∧
        s.low j = t.low j ∧ s.close j = t.close j ∧ s.vol j = t.vol j ∧
        s.turnover j = t.turnover j ∧ s.change j = t.change j) :
    miniAccepts s i = miniAccepts t i := by
  have hhi : ∀ j, j ≤ i → s.high j = t.high j := fun j hj => (h j hj).2.1
  have hlo : ∀ j, j ≤ i → s.low j = t.low j := fun j hj => (h j hj).2.2.1
  have hcl : ∀ j, j ≤ i → s.close j = t.close j := fun j hj => (h j hj).2.2.2.1
  have hvol : ∀ j, j ≤ i → s.vol j = t.vol j := fun j hj => (h j hj).2.2.2.2.1
  have hto : ∀ j, j ≤ i → s.turnover j = t.turnover j := fun j hj =>
    (h j hj).2.2.2.2.2.1
  have hch : ∀ j, j ≤ i → s.change j = t.change j := fun j hj =>
    (h j hj).2.2.2.2.2.2
  have hrsi : rsi6 s i = rsi6 t i := rsi6_congr hcl
  have hkdj : kdjK s i = kdjK t i := kdjK_congr (rsv_congr hhi hlo hcl)
  have hma5i : ma5 s i = ma5 t i := rollingMean_congr 5 hcl
  have hma5p : ma5 s (i - 1) = ma5 t (i - 1) :=
    rollingMean_congr 5 (fun j hj => hcl j (le_trans hj (Nat.sub_le i 1)))
  have hma60 : ma60 s i = ma60 t i := rollingMean_congr 60 hcl
  have hat : avgTurnover30 s i = avgTurnover30 t i := rollingMean_congr 30 hto
  have hcv : changeVal s i = changeVal t i := by
    unfold changeVal
    rw [hflag, hch i (le_refl i)]
  have hvr : volRat s i = volRat t i := by
    unfold volRat volMa5
    by_cases h0 : i = 0
    · rw [if_pos h0, if_pos h0]
    · rw [if_neg h0, if_neg h0,
        rollingMean_congr 5 (fun j hj => hvol j (le_trans hj (Nat.sub_le i 1))),
        hvol i (le_refl i)]
  unfold miniAccepts baseReject spaceReject oversoldRejects stabReject
    volBandReject potential
  rw [hcl i (le_refl i), hat, hma60, hcv, hrsi, hkdj, hma5i, hma5p, hvr]

theorem ewmNum_eq_sum (s : Bars) (i : ℕ) :
    ewmNum s i = ∑ j in Finset.range (i + 1),
      (match rsv s j with
        | some r => ((2 : ℚ) / 3) ^ (i - j) * r
        | none => 0) := by
  induction i with
  | zero =>
      rw [Finset.sum_range_one]
      unfold ewmNum
      cases h : rsv s 0 <;> simp [h]
  | succ n ih =>
      rw [Finset.sum_range_succ]
      have step : (∑ j in Finset.range (n + 1),
          (match rsv s j with
            | some r => ((2 : ℚ) / 3) ^ (n + 1 - j) * r
            | none => 0)) =
          (2 : ℚ) / 3 * ∑ j in Finset.range (n + 1),
          (match rsv s j with
            | some r => ((2 : ℚ) / 3) ^ (n - j) * r
            | none => 0) := by
        rw [Finset.mul_sum]
        refine Finset.sum_congr rfl ?_
        intro j hj
        have hjn : j ≤ n := Nat.lt_succ_iff.mp (Finset.mem_range.mp hj)
        have hexp : n + 1 - j = (n - j) + 1 := by omega
        cases hr : rsv s j
        · simp
        · rw [hexp, pow_succ]
          ring
      have hdef : ewmNum s (n + 1) = (2 : ℚ) / 3 * ewmNum s n +
          (match rsv s (n + 1) with
            | some r => r
            | none => 0) := rfl
      rw [hdef, step, ← ih]
      cases hr : rsv s (n + 1) <;> simp [Nat.sub_self]

theorem ewmDen_eq_sum (s : Bars) (i : ℕ) :
    ewmDen s i = ∑ j in Finset.range (i + 1),
      (match rsv s j with
        | some _ => ((2 : ℚ) / 3) ^ (i - j)
        | none => 0) := by
  induction i with
  | zero =>
      rw [Finset.sum_range_one]
      unfold ewmDen
      cases h : rsv s 0 <;> simp [h]
  | succ n ih =>
      rw [Finset.sum_range_succ]
      have step : (∑ j in Finset.range (n + 1),
          (match rsv s j with
            | some _ => ((2 : ℚ) / 3) ^ (n + 1 - j)
            | none => 0)) =
          (2 : ℚ) / 3 * ∑ j in Finset.range (n + 1),
          (match rsv s j with
            | some _ => ((2 : ℚ) / 3) ^ (n - j)
            | none => 0) := by
        rw [Finset.mul_sum]
        refine Finset.sum_congr rfl ?_
        intro j hj
        have hjn : j ≤ n := Nat.lt_succ_iff.mp (Finset.mem_range.mp hj)
        have hexp : n + 1 - j = (n - j) + 1 := by omega
        cases hr : rsv s j
        · simp
        · rw [hexp, pow_succ]
          ring
      have hdef : ewmDen s (n + 1) = (2 : ℚ) / 3 * ewmDen s n +
          (match rsv s (n + 1) with
            | some _ => 1
            | none => 0) := rfl
      rw [hdef, step, ← ih]
      cases hr : rsv s (n + 1) <;> simp [Nat.sub_self]

/-! ### Claim theorems -/

/-- C1 (counterexample): on a constant-price series both `rsi6` and `kdj_k`
are undefined at index 11, yet the oversold gate does NOT reject the
security — the rejection test `rsi6 > 35 or kdj_k > 45` evaluates false on
NaN, contradicting the claim that undefined values make the security fail
the oversold gate. -/
theorem c1_counterexample :
    rsi6 constBars 11 = none ∧ kdjK constBars 11 = none ∧
      oversoldRejects constBars 11 = false := by
  refine ⟨?_, ?_, ?_⟩ <;> with_unfolding_all rfl

/-- C1 (amended): when `rsi6` and `kdj_k` are both undefined at an index, the
code's rejection test `rsi6 > RSI6_MAX or kdj_k > KDJ_K_MAX` evaluates
false, so the security PASSES the oversold gate rather than being rejected
by it. -/
theorem c1_undef_passes_oversold_gate (s : Bars) (i : ℕ)
    (h1 : rsi6 s i = none) (h2 : kdjK s i = none) :
    oversoldRejects s i = false := by
  unfold oversoldRejects
  rw [h1, h2]
  rfl

/-- C1 (witness): the amended theorem applied to the constant-price series
at index 11. -/
theorem c1_witness : oversoldRejects constBars 11 = false :=
  c1_undef_passes_oversold_gate constBars 11
    (by with_unfolding_all rfl) (by with_unfolding_all rfl)

/-- C2 (counterexample): on a 35-bar instance of `hitBars` the ledger holds
one hit whose 20-day forward return is undefined; the win rate is silently
0 and is reported as the string `"0.0%"` — byte-for-byte the same report
as a genuinely tested never-winning ledger — not as a "no data" marker. -/
theorem c2_counterexample :
    p20Column hitBars 35 = [none] ∧
      winRate20 (p20Column hitBars 35) = 0 ∧
      winRateStr (p20Column hitBars 35) = "0.0%" ∧
      winRateStr [some (-1)] = "0.0%" := by
  refine ⟨?_, ?_, ?_, ?_⟩ <;> with_unfolding_all rfl

/-- C2 (amended): when at least one hit has a defined 20-day forward return,
`win_rate` equals the fraction of defined forward returns that are positive
and lies in [0,1]; when no defined forward return exists the code yields 0
(reported as "0.0%"), not a distinct "no data" marker. -/
theorem winRate20_spec (L : List (Option ℚ)) :
    (0 < (L.filterMap id).length →
      winRate20 L = (((L.filterMap id).countP (fun q => decide (0 < q)) : ℕ) : ℚ) /
          (((L.filterMap id).length : ℕ) : ℚ) ∧
      0 ≤ winRate20 L ∧ winRate20 L ≤ 1) ∧
    ((L.filterMap id).length = 0 → winRate20 L = 0) := by
  constructor
  · intro hpos
    have hne : (L.filterMap id).isEmpty = false := by
      rcases hv : L.filterMap id with _ | ⟨a, v⟩
      · rw [hv] at hpos; simp at hpos
      · rfl
    have heq : winRate20 L = (((L.filterMap id).countP (fun q => decide (0 < q)) : ℕ) : ℚ) /
        (((L.filterMap id).length : ℕ) : ℚ) := by
      simp only [winRate20]
      rw [hne]
      rfl
    refine ⟨heq, ?_, ?_⟩
    · rw [heq]
      positivity
    · rw [heq]
      rw [div_le_one (by exact_mod_cast hpos)]
      exact_mod_cast List.countP_le_length _
  · intro hzero
    have hne : (L.filterMap id).isEmpty = true := by
      rcases hv : L.filterMap id with _ | ⟨a, v⟩
      · rfl
      · rw [hv] at hzero; simp at hzero
    simp only [winRate20]
    rw [hne]
    rfl

/-- C2 (witness): on the 50-bar `hitBars` ledger the single hit has a
defined positive 20-day return, and the theorem yields a win rate in
[0,1]. -/
theorem c2_witness :
    0 < ((p20Column hitBars 50).filterMap id).length ∧
      0 ≤ winRate20 (p20Column hitBars 50) ∧
      winRate20 (p20Column hitBars 50) ≤ 1 := by
  have h : 0 < ((p20Column hitBars 50).filterMap id).length := by
    with_unfolding_all decide
  exact ⟨h, ((winRate20_spec (p20Column hitBars 50)).1 h).2.1,
    ((winRate20_spec (p20Column hitBars 50)).1 h).2.2⟩

/-- C3 (counterexample): with 600 bars, every 20-bar mean volume in the band
of indices feeding the predicate at index 90 is defined and 90 ≤ 598, yet
index 90 is NOT visited by the historical replay — the scan starts at
`max(20, length − 500) = 100`, not at the first index where the required
indicators are defined. -/
theorem c3_counterexample :
    (∀ k, 80 ≤ k → k ≤ 90 → (volMa20 constBars k).isSome = true) ∧
      90 ≤ 600 - 2 ∧ (90 : ℕ) ∉ scanIdxs 600 := by
  refine ⟨?_, by decide, by with_unfolding_all decide⟩
  intro k h1 h2
  unfold volMa20 rollingMean
  rw [if_neg (by omega)]
  rfl

/-- C3 (amended): the historical replay that excludes today evaluates the
predicate at exactly the indices from `max(20, length − 500)` up to
`length − 2` inclusive. -/
theorem scanIdxs_characterization (n j : ℕ) :
    j ∈ scanIdxs n ↔ startScan n ≤ j ∧ j ≤ n - 2 := by
  unfold scanIdxs startScan
  simp only [List.mem_filter, List.mem_range, decide_eq_true_eq, max_le_iff]
  omega

/-- C4 (confirmed): every historical index where the predicate is true
contributes a ledger record whose forward return at horizon `d` is
`(close[j+d] − close[j]) / close[j]` when `j+d < length` and is undefined
when `j+d` is at or beyond the end of the series. -/
theorem ledger_forward_returns (s : Bars) (n j : ℕ)
    (h1 : j ∈ scanIdxs n) (h2 : isStrategyHit s j = true) :
    (j, hitRecord s n j) ∈ buildLedger s n ∧
    ∀ d ∈ horizons,
      (j + d < n →
        hitRecord s n j d = some ((s.close (j + d) - s.close j) / s.close j)) ∧
      (n ≤ j + d → hitRecord s n j d = none) := by
  refine ⟨?_, ?_⟩
  · unfold buildLedger
    refine List.mem_filterMap.mpr ⟨j, h1, ?_⟩
    rw [h2]
    rfl
  · intro d _
    unfold hitRecord
    constructor
    · intro hd
      rw [if_pos hd]
    · intro hd
      rw [if_neg (by omega)]

/-- C4 (witness): the theorem applied to the engineered 50-bar series whose
predicate fires at index 25; its 20-day forward return is
`(close[45] − close[25]) / close[25] = 1/11`. -/
theorem c4_witness :
    (25 : ℕ) ∈ scanIdxs 50 ∧ isStrategyHit hitBars 25 = true ∧
      (25, hitRecord hitBars 50 25) ∈ buildLedger hitBars 50 ∧
      hitRecord hitBars 50 25 20 = some (1 / 11) := by
  have m : (25 : ℕ) ∈ scanIdxs 50 := by with_unfolding_all decide
  have h : isStrategyHit hitBars 25 = true := by with_unfolding_all rfl
  have main := ledger_forward_returns hitBars 50 25 m h
  refine ⟨m, h, main.1, ?_⟩
  rw [(main.2 20 (by decide)).1 (by decide)]
  with_unfolding_all rfl

/-- C8 (code bug, evaluated at the failing input): two securities with
historical 20-day win rates 100% and 95% are rendered `"100.0%"` and
`"95.0%"`; the source sorts these formatted strings, and lexicographically
`"95.0%"` is the larger, so descending sort places the 95% security before
the 100% one — a numeric inversion with respect to descending win rate. -/
theorem c8_string_sort_inversion :
    sortByWinRateDesc [1, 19 / 20] = [19 / 20, 1] ∧
      winKey 1 = "100.0%" ∧ winKey (19 / 20) = "95.0%" ∧
      ((19 : ℚ) / 20 < 1) := by
  refine ⟨?_, ?_, ?_, by norm_num⟩ <;> with_unfolding_all rfl

/-- C10 (confirmed): when the input has no percent-change column, today's
change is taken as 0, the daily-move half of the space check can never
reject (the check reduces to the potential condition alone), and the output
record's change field is 0. -/
theorem c10_missing_change_column (s : Bars) (i : ℕ) (h : s.hasChange = false) :
    changeVal s i = 0 ∧ spaceReject s i = oLt (potential s i) 10 ∧
      reportedChange s i = 0 := by
  have hc : changeVal s i = 0 := by
    unfold changeVal
    rw [h]
    rfl
  refine ⟨hc, ?_, ?_⟩
  · unfold spaceReject
    rw [hc]
    norm_num
  · unfold reportedChange
    rw [hc]
    with_unfolding_all rfl

/-- C5 (confirmed): for indices i ≥ 20 the predicate is true exactly when
(a) some bar among the 10 before i out-traded its own 20-bar mean volume by
more than 1.5×, (b) the volumes at i−1 and i−2 are each below 0.75× the
20-bar mean volume at i, and (c) the close at i exceeds both the previous
high and today's open. -/
theorem hit_characterization (s : Bars) (i : ℕ) (h : 20 ≤ i) :
    isStrategyHit s i = true ↔
      ((∃ j, i - 10 ≤ j ∧ j < i ∧
          ∃ m, volMa20 s j = some m ∧ m * (3 / 2) < s.vol j) ∧
       (∃ m, volMa20 s i = some m ∧
          s.vol (i - 1) < m * (3 / 4) ∧ s.vol (i - 2) < m * (3 / 4)) ∧
       (s.high (i - 1) < s.close i ∧ s.opn i < s.close i)) := by
  unfold isStrategyHit
  rw [if_neg (by omega)]
  simp only [Bool.and_eq_true, List.any_eq_true, List.mem_range,
    decide_eq_true_eq]
  constructor
  · rintro ⟨⟨⟨k, hk, hact⟩, hs1, hs2⟩, hrev⟩
    obtain ⟨m, hm, hlt⟩ := oLtO_map_some.mp hact
    obtain ⟨m1, hm1, hlt1⟩ := oLtO_some_map.mp hs1
    obtain ⟨m2, hm2, hlt2⟩ := oLtO_some_map.mp hs2
    refine ⟨⟨i - 10 + k, by omega, by omega, m, hm, hlt⟩, ⟨m1, hm1, hlt1, ?_⟩, hrev⟩
    rw [hm1] at hm2
    cases hm2
    exact hlt2
  · rintro ⟨⟨j, hj1, hj2, m, hm, hlt⟩, ⟨m', hm', hlt1, hlt2⟩, hrev⟩
    refine ⟨⟨⟨j - (i - 10), by omega, ?_⟩, ?_, ?_⟩, hrev⟩
    · have hji : i - 10 + (j - (i - 10)) = j := by omega
      rw [hji]
      exact oLtO_map_some.mpr ⟨m, hm, hlt⟩
    · exact oLtO_some_map.mpr ⟨m', hm', hlt1⟩
    · exact oLtO_some_map.mpr ⟨m', hm', hlt2⟩

/-- C5 (witness): the characterization applied at index 25 of the engineered
series. -/
theorem c5_witness :
    isStrategyHit hitBars 25 = true ↔
      ((∃ j, 25 - 10 ≤ j ∧ j < 25 ∧
          ∃ m, volMa20 hitBars j = some m ∧ m * (3 / 2) < hitBars.vol j) ∧
       (∃ m, volMa20 hitBars 25 = some m ∧
          hitBars.vol (25 - 1) < m * (3 / 4) ∧ hitBars.vol (25 - 2) < m * (3 / 4)) ∧
       (hitBars.high (25 - 1) < hitBars.close 25 ∧ hitBars.opn 25 < hitBars.close 25)) :=
  hit_characterization hitBars 25 (by decide)

/-- C6 (counterexample): with five zero-volume bars before index 5, the
lagged 5-bar mean volume is defined and equal to 0 while today's volume is
positive, and `vol_ratio` is +∞ (IEEE float division) — a numeric sentinel,
not the undefined value the claim promises. -/
theorem c6_counterexample :
    volMa5 zeroVolBars 5 = some 0 ∧ volRat zeroVolBars 5 = VRat.pinf ∧
      VRat.pinf ≠ VRat.undef := by
  refine ⟨?_, ?_, by decide⟩ <;> with_unfolding_all rfl

/-- C6 (amended): `vol_ratio[i]` equals `volume[i]` divided by the lagged
5-bar mean when that mean exists and is nonzero; it is undefined when fewer
than 5 preceding bars exist; but when the mean is zero and `volume[i] > 0`
it is +∞ (a sentinel numeric value), which still fails the volume-band
check. -/
theorem volRat_characterization (s : Bars) (i : ℕ) :
    (i < 5 → volRat s i = VRat.undef) ∧
    (5 ≤ i → volMa5 s i =
        some ((s.vol (i - 1) + s.vol (i - 2) + s.vol (i - 3) +
          s.vol (i - 4) + s.vol (i - 5)) / 5)) ∧
    (∀ m, volMa5 s i = some m → m ≠ 0 →
        volRat s i = VRat.val (s.vol i / m)) ∧
    (∀ m, volMa5 s i = some m → m = 0 → 0 ≤ s.vol i →
        volRat s i = (if s.vol i = 0 then VRat.undef else VRat.pinf) ∧
          volBandOk (volRat s i) = false) := by
  refine ⟨?_, ?_, ?_, ?_⟩
  · intro hi
    unfold volRat volMa5
    by_cases h0 : i = 0
    · rw [if_pos h0]
    · rw [if_neg h0]
      unfold rollingMean
      rw [if_pos (by omega)]
  · intro hi
    unfold volMa5
    rw [if_neg (by omega)]
    unfold rollingMean
    rw [if_neg (by omega)]
    have hr : List.range 5 = [0, 1, 2, 3, 4] := rfl
    rw [hr]
    simp only [List.map_cons, List.map_nil, List.sum_cons, List.sum_nil]
    have e1 : i - 1 - 1 = i - 2 := by omega
    have e2 : i - 1 - 2 = i - 3 := by omega
    have e3 : i - 1 - 3 = i - 4 := by omega
    have e4 : i - 1 - 4 = i - 5 := by omega
    rw [Nat.sub_zero, e1, e2, e3, e4]
    norm_num
    ring_nf
  · intro m hm hne
    unfold volRat
    rw [hm]
    simp [hne]
  · intro m hm hzero hnn
    unfold volRat
    rw [hm]
    subst hzero
    by_cases hv : s.vol i = 0
    · simp [volBandOk, hv]
    · have hpos : (0 : ℚ) < s.vol i := lt_of_le_of_ne hnn (Ne.symm hv)
      simp [volBandOk, hv, hpos]

/-- C6 (witness): the amended theorem applied to the constant series at
index 7, where the lagged mean is 100 and the ratio is a plain value. -/
theorem c6_witness :
    volMa5 constBars 7 = some 100 ∧
      volRat constBars 7 = VRat.val (constBars.vol 7 / 100) := by
  have h : volMa5 constBars 7 = some 100 := by with_unfolding_all rfl
  exact ⟨h, (volRat_characterization constBars 7).2.2.1 100 h (by norm_num)⟩

/-- C7 (counterexample): on a series with defined RSV exactly at indices 8
(value 0) and 9 (value 100), the source's `ewm(com=2)` value at index 9 is
`(100 + (2/3)·0) / (1 + 2/3) = 60`, while the claimed recursion
`K = (2/3)·K_prev + (1/3)·RSV` over the defined RSV values yields 100/3 —
the two disagree. -/
theorem c7_counterexample :
    kdjK stochBars 9 = some 60 ∧ kdjKRec stochBars 9 = some (100 / 3) ∧
      kdjK stochBars 9 ≠ kdjKRec stochBars 9 := by
  refine ⟨?_, ?_, ?_⟩
  · with_unfolding_all rfl
  · with_unfolding_all rfl
  · with_unfolding_all decide

/-- C7 (amended): `kdj_k[i]` is the weight-NORMALISED (pandas `adjust=True`)
exponentially weighted mean of the RSV series with decay 2/3 per absolute
bar position: the sum of `(2/3)^(i−j)·rsv[j]` over defined `rsv[j]`, divided
by the sum of the same weights; undefined RSV entries contribute neither
term (but still advance the positional decay), and the value is undefined
only while no RSV value is defined.  The plain recursion
`K = (2/3)·K_prev + (1/3)·RSV` does not hold. -/
theorem kdjK_closed_form (s : Bars) (i : ℕ) :
    kdjK s i =
      (if (∑ j in Finset.range (i + 1),
            (match rsv s j with
              | some _ => ((2 : ℚ) / 3) ^ (i - j)
              | none => 0)) = 0
       then none
       else some ((∑ j in Finset.range (i + 1),
            (match rsv s j with
              | some r => ((2 : ℚ) / 3) ^ (i - j) * r
              | none => 0)) /
          (∑ j in Finset.range (i + 1),
            (match rsv s j with
              | some _ => ((2 : ℚ) / 3) ^ (i - j)
              | none => 0)))) := by
  unfold kdjK
  rw [ewmNum_eq_sum, ewmDen_eq_sum]

/-- C9 (confirmed): the predicates read no future data — on two series that
agree on every bar column at all indices ≤ i (and on the presence of the
percent-change column), both the reversal predicate and the mini scanner's
whole filter chain evaluate identically at i. -/
theorem no_lookahead (s t : Bars) (i : ℕ) (hflag : s.hasChange = t.hasChange)
    (h : ∀ j, j ≤ i → s.opn j = t.opn j ∧ s.high j = t.high j ∧
        s.low j = t.low j ∧ s.close j = t.close j ∧ s.vol j = t.vol j ∧
        s.turnover j = t.turnover j ∧ s.change j = t.change j) :
    isStrategyHit s i = isStrategyHit t i ∧ miniAccepts s i = miniAccepts t i :=
  ⟨isStrategyHit_congr s t i h, miniAccepts_congr s t i hflag h⟩

/-- C9 (witness): the no-lookahead theorem applied at index 25 to the
constant series and its mutation at the future index 30. -/
theorem c9_witness :
    isStrategyHit constBars 25 = isStrategyHit futBars 25 ∧
      miniAccepts constBars 25 = miniAccepts futBars 25 :=
  no_lookahead constBars futBars 25 rfl (by with_unfolding_all decide)

/-- C10 (witness): the theorem applied to a series lacking the
percent-change column, at index 3. -/
theorem c10_witness :
    changeVal noChangeBars 3 = 0 ∧
      spaceReject noChangeBars 3 = oLt (potential noChangeBars 3) 10 ∧
      reportedChange noChangeBars 3 = 0 :=
  c10_missing_change_column noChangeBars 3 rfl

end StockScan
